import Mathlib

/-!
Shallow embedding of the `formular` form library (apparently-studio/formular),
following the latest revision of the source (the second document in
`src/unnamed/part_000`, which supersedes `src/src/index.tsx`): the revision
with the value-preserving `addField`, the `stable-hash` based dirty checks and
the key-path `setData` calls.

Modelling conventions:
 - JavaScript runtime values are the inductive `JValue` (strings, finite
   numbers as rationals, `NaN`, the two infinities, booleans, `null`,
   `undefined`, arrays and plain objects as ordered field lists).
 - The registry `data` and the snapshot `initialData` are association lists
   in insertion order; together with the focus log and the element-value
   write log they form a `World`.  DOM elements are identified by `Nat`
   handles; `element.focus()` and `element.value = v` append to the logs.
 - Promise-returning validators are modelled by their resolved value:
   `JValue → JValue → Option String` (`none` models an `undefined` result).
 - Operations that can raise a `TypeError` (an unguarded store write on a
   missing record) return `Except Unit`; `Except.error ()` models the throw.
-/

set_option linter.unusedVariables false

namespace Formular

/-- JavaScript runtime values.  Finite numbers are rationals; `nan` and
`inf` complete the number type.  Objects are ordered association lists of
own properties. -/
inductive JValue where
  | str (s : String)
  | num (q : ℚ)
  | nan
  | inf (neg : Bool)
  | bool (b : Bool)
  | null
  | undef
  | arr (xs : List JValue)
  | obj (fs : List (String × JValue))

/-- `typeof v == "number"`. -/
def typeofIsNumber : JValue → Bool
  | .num _ => true
  | .nan => true
  | .inf _ => true
  | _ => false

/-- JavaScript truthiness (`!v` is `!truthy v`). -/
def truthy : JValue → Bool
  | .str s => !(s == "")
  | .num q => !(q == 0)
  | .nan => false
  | .inf _ => true
  | .bool b => b
  | .null => false
  | .undef => false
  | .arr _ => true
  | .obj _ => true

/-! ### `Number(string)` up to the observations the code makes

The source observes `Number(part)` only through `isNaN(Number(part))`
(in `analyzeNamePath`) and, in an unexercised corner of `required`, through
loose equality with `0`.  We therefore model the conversion by
`jsStringToNumber : String → Option Bool`:
`none` means the result is `NaN`; `some z` means a non-`NaN` number that is
zero iff `z`.  The grammar follows ECMA `StringNumericLiteral`: optional
whitespace, empty string is `0`, signed decimal literals with optional
fraction and exponent, `Infinity`, and unsigned `0x`/`0o`/`0b` literals. -/

def jsWhitespace (c : Char) : Bool :=
  c == ' ' || c == '\t' || c == '\n' || c == '\r' || c == '\x0b' || c == '\x0c'

def jsTrim (s : String) : List Char :=
  ((s.toList.dropWhile jsWhitespace).reverse.dropWhile jsWhitespace).reverse

/-- Splits a leading run of decimal digits. -/
def takeDigits : List Char → List Char × List Char
  | [] => ([], [])
  | c :: cs =>
    if c.isDigit then
      let p := takeDigits cs
      (c :: p.1, p.2)
    else ([], c :: cs)

def isHexChar (c : Char) : Bool :=
  c.isDigit || (97 ≤ c.toNat && c.toNat ≤ 102) || (65 ≤ c.toNat && c.toNat ≤ 70)

def isOctChar (c : Char) : Bool := 48 ≤ c.toNat && c.toNat ≤ 55

def isBinChar (c : Char) : Bool := c == '0' || c == '1'

/-- Unsigned decimal literal `digits [. digits] [e [sign] digits]` or
`. digits [e ...]`; returns `some z` (`z` = the mantissa digits are all `0`,
hence the value is zero) or `none` when the text is not a valid literal. -/
def parseDecimal (cs : List Char) : Option Bool :=
  let p := takeDigits cs
  let intPart := p.1
  let rest1 := p.2
  let fracState : Option (List Char × List Char) :=
    match rest1 with
    | '.' :: cs2 =>
      let q := takeDigits cs2
      some (q.1, q.2)
    | _ => some ([], rest1)
  match fracState with
  | none => none
  | some (fracPart, rest2) =>
    if intPart.isEmpty && fracPart.isEmpty then none
    else
      let expOk : Bool :=
        match rest2 with
        | [] => true
        | 'e' :: cs3 =>
          (match cs3 with
           | '+' :: cs4 => !(takeDigits cs4).1.isEmpty && (takeDigits cs4).2.isEmpty
           | '-' :: cs4 => !(takeDigits cs4).1.isEmpty && (takeDigits cs4).2.isEmpty
           | _ => !(takeDigits cs3).1.isEmpty && (takeDigits cs3).2.isEmpty)
        | 'E' :: cs3 =>
          (match cs3 with
           | '+' :: cs4 => !(takeDigits cs4).1.isEmpty && (takeDigits cs4).2.isEmpty
           | '-' :: cs4 => !(takeDigits cs4).1.isEmpty && (takeDigits cs4).2.isEmpty
           | _ => !(takeDigits cs3).1.isEmpty && (takeDigits cs3).2.isEmpty)
        | _ => false
      if expOk then some ((intPart ++ fracPart).all (· == '0')) else none

/-- `Number(s)` observed through (is `NaN`, is zero); see the section note. -/
def jsStringToNumber (s : String) : Option Bool :=
  match jsTrim s with
  | [] => some true
  | cs =>
    let unsigned : List Char → Option Bool := fun cs =>
      if cs = "Infinity".toList then some false
      else
        match cs with
        | '0' :: 'x' :: ds => if !ds.isEmpty && ds.all isHexChar then some (ds.all (· == '0')) else none
        | '0' :: 'X' :: ds => if !ds.isEmpty && ds.all isHexChar then some (ds.all (· == '0')) else none
        | '0' :: 'o' :: ds => if !ds.isEmpty && ds.all isOctChar then some (ds.all (· == '0')) else none
        | '0' :: 'O' :: ds => if !ds.isEmpty && ds.all isOctChar then some (ds.all (· == '0')) else none
        | '0' :: 'b' :: ds => if !ds.isEmpty && ds.all isBinChar then some (ds.all (· == '0')) else none
        | '0' :: 'B' :: ds => if !ds.isEmpty && ds.all isBinChar then some (ds.all (· == '0')) else none
        | _ => parseDecimal cs
    match cs with
    | '+' :: cs2 => if cs2 = "Infinity".toList then some false else parseDecimal cs2
    | '-' :: cs2 => if cs2 = "Infinity".toList then some false else parseDecimal cs2
    | _ => unsigned cs

/-- `!isNaN(Number(s))`. -/
def jsIsNumeric (s : String) : Bool := (jsStringToNumber s).isSome

/-! ### Name paths -/

/-- `NamePathPart`: the source declares `value : string | number`, but every
part produced by `analyzeNamePath` is a string (the output of `split`). -/
structure NamePathPart where
  value : String
  arrayIndex : Bool
deriving Repr

/-- `name.split(".")` (character-level, the separator is a single dot). -/
def splitDotAux : List Char → List Char → List String
  | [], acc => [String.mk acc.reverse]
  | c :: cs, acc =>
    if c = '.' then String.mk acc.reverse :: splitDotAux cs []
    else splitDotAux cs (c :: acc)

def splitDot (s : String) : List String := splitDotAux s.toList []

/-- `analyzeNamePath`: split on `"."`; a part is an `arrayIndex` iff
`!isNaN(Number(part))`. -/
def analyzeNamePath (name : String) : List NamePathPart :=
  (splitDot name).map (fun part => { value := part, arrayIndex := jsIsNumeric part })

/-! ### Property access on `JValue`

`createObjectFromPath` reads and writes properties on plain objects and
arrays.  A string key addresses an array slot when it is a canonical array
index (ECMA: the decimal form of an integer below `2^32 - 1`, no leading
zeros).  Writes to properties of primitives are modelled as silent no-ops;
no registry produced by the claims exercises them. -/

/-- The numeric value of a digit string. -/
def digitsToNat (cs : List Char) : Nat :=
  cs.foldl (fun n c => n * 10 + (c.toNat - 48)) 0

/-- Canonical array-index strings: `"0"`, or digits with no leading zero,
value below `2^32 - 1`. -/
def isCanonicalIndex (s : String) : Bool :=
  s == "0" ||
    (!(s.toList.isEmpty) && s.toList.all Char.isDigit && !(s.toList.headD '0' == '0') &&
      decide (digitsToNat s.toList < 4294967295))

/-- The array slot addressed by a key, when the key is a canonical index. -/
def keyToIndex (s : String) : Option Nat :=
  if isCanonicalIndex s then some (digitsToNat s.toList) else none

def lookupProp (k : String) : List (String × JValue) → Option JValue
  | [] => none
  | p :: rest => if p.1 = k then some p.2 else lookupProp k rest

/-- `container.hasOwnProperty(k)`. -/
def hasProp (container : JValue) (k : String) : Bool :=
  match container with
  | .obj fs => (lookupProp k fs).isSome
  | .arr xs =>
    k == "length" ||
      (match keyToIndex k with
       | some i => decide (i < xs.length)
       | none => false)
  | .str s =>
    k == "length" ||
      (match keyToIndex k with
       | some i => decide (i < s.length)
       | none => false)
  | _ => false

/-- `container[k]` (reads; absent properties read as `undefined`). -/
def getProp (container : JValue) (k : String) : JValue :=
  match container with
  | .obj fs => (lookupProp k fs).getD .undef
  | .arr xs =>
    if k == "length" then .num xs.length
    else
      match keyToIndex k with
      | some i => xs.getD i .undef
      | none => .undef
  | .str s =>
    if k == "length" then .num s.length
    else
      match keyToIndex k with
      | some i => if h : i < s.length then .str (String.singleton (s.toList.get ⟨i, by simpa using h⟩)) else .undef
      | none => .undef
  | _ => .undef

def setPropFields (k : String) (v : JValue) : List (String × JValue) → List (String × JValue)
  | [] => [(k, v)]
  | p :: rest => if p.1 = k then (k, v) :: rest else p :: setPropFields k v rest

/-- Writes element `i` of an array, padding with `undefined` holes when the
index is past the end (a JS sparse-array write). -/
def setArrayIndex (xs : List JValue) (i : Nat) (v : JValue) : List JValue :=
  match xs, i with
  | [], 0 => [v]
  | [], n + 1 => .undef :: setArrayIndex [] n v
  | _ :: rest, 0 => v :: rest
  | x :: rest, n + 1 => x :: setArrayIndex rest n v

/-- `container[k] = v`.  Writes on primitives (and non-index keys on arrays)
are modelled as no-ops; they are unreachable from the claims. -/
def setProp (container : JValue) (k : String) (v : JValue) : JValue :=
  match container with
  | .obj fs => .obj (setPropFields k v fs)
  | .arr xs =>
    (match keyToIndex k with
     | some i => .arr (setArrayIndex xs i v)
     | none => .arr xs)
  | other => other

/-- Whether the segment after the current one is an array index
(`path[i + 1]?.arrayIndex`, `undefined` past the end being falsy). -/
def nextIsIndex : List NamePathPart → Bool
  | q :: _ => q.arrayIndex
  | [] => false

/-- `createObjectFromPath(object, path, value)`: walk the path, creating an
array (next segment an index) or an object (otherwise) at each absent slot,
descend at non-final segments, and write `value` at the final one.  The
source mutates `object`; this returns the updated tree, writing the updated
child back into its parent at each level. -/
def createObjectFromPath (container : JValue) : List NamePathPart → JValue → JValue
  | [], _ => container
  | p :: rest, v =>
    let c1 := if hasProp container p.value then container
              else setProp container p.value (if nextIsIndex rest then .arr [] else .obj [])
    match rest with
    | [] => setProp c1 p.value v
    | _ :: _ => setProp c1 p.value (createObjectFromPath (getProp c1 p.value) rest v)

/-! ### The field registry and the world state -/

/-- A resolved validator: the value a `FieldValidator` promise settles with
(`none` models resolving with `undefined`). -/
def FieldValidator : Type := JValue → JValue → Option String

/-- The per-field record stored in `data`. -/
structure Field where
  path : List NamePathPart
  ref : Option Nat
  value : JValue
  touched : Bool
  errors : List String
  validators : List FieldValidator

/-- Registry: `{ [key: string]: Field }` in insertion order. -/
def Data : Type := List (String × Field)

/-- The full mutable state plus the logs of side effects on bound elements:
`focused` records every `element.focus()` call, `elemWrites` every
`element.value = v` write, in order. -/
structure World where
  data : List (String × Field)
  initialData : List (String × JValue)
  focused : List Nat
  elemWrites : List (Nat × JValue)

def emptyWorld : World := ⟨[], [], [], []⟩

def lookupField (n : String) : List (String × Field) → Option Field
  | [] => none
  | p :: rest => if p.1 = n then some p.2 else lookupField n rest

/-- `data.hasOwnProperty(n)` / `data[n] !== undefined`. -/
def containsField (n : String) (d : List (String × Field)) : Bool :=
  (lookupField n d).isSome

/-- Replace the record at an existing key in place, or append a new entry
(a JS property write keeps the original insertion position). -/
def setRecord (n : String) (f : Field) (d : List (String × Field)) : List (String × Field) :=
  if containsField n d then d.map (fun p => if p.1 = n then (n, f) else p)
  else d ++ [(n, f)]

/-! ### `for ... in` key order

`Object.keys` lists canonical-array-index keys first, in ascending numeric
order, then the remaining string keys in insertion order.  Registry keys
containing a dot are never canonical indices, so for the claims this
coincides with insertion order; the numeric-first rule is still modelled. -/

def indexKeyValue (s : String) : Nat := digitsToNat s.toList

def insertIndexKey (k : String) : List String → List String
  | [] => [k]
  | x :: xs =>
    if indexKeyValue k ≤ indexKeyValue x then k :: x :: xs
    else x :: insertIndexKey k xs

def sortIndexKeys : List String → List String
  | [] => []
  | x :: xs => insertIndexKey x (sortIndexKeys xs)

/-- JS `for (const key in o)` enumeration order over the key list of `o`. -/
def jsKeysOf (ks : List String) : List String :=
  sortIndexKeys (ks.filter (fun k => isCanonicalIndex k)) ++
    ks.filter (fun k => !isCanonicalIndex k)

def dataKeys (d : List (String × Field)) : List String := jsKeysOf (d.map (·.1))

/-! ### Derived views -/

/-- `extractFieldsMember("value")`: fold `createObjectFromPath` over the
registry in enumeration order. -/
def extractValues (d : List (String × Field)) : JValue :=
  (dataKeys d).foldl
    (fun acc k =>
      match lookupField k d with
      | some f => createObjectFromPath acc f.path f.value
      | none => acc)
    (.obj [])

/-- One field of `isFormValid`'s loop condition:
`field.errors.length > 0 || field.validators.length > 0 && !field.touched`. -/
def fieldInvalid (f : Field) : Bool :=
  !f.errors.isEmpty || (!f.validators.isEmpty && !f.touched)

/-- `isFormValid`: the loop returns `false` at the first field matching the
condition, `true` when none does.  The loop enumerates keys of a JS object,
which cannot repeat, so on registry states the per-entry `all` is the same
check. -/
def isFormValid (d : List (String × Field)) : Bool :=
  d.all (fun p => !fieldInvalid p.2)

/-! ### `stable-hash` equality

`isFieldDirty` compares `stableHash(initialData[name])` with
`stableHash(value)`.  `stable-hash` serializes objects with sorted keys and
everything else structurally, so hash equality is structural equality up to
object-key order.  The comparison below recurses on an explicit fuel (large
enough at `stableEq`); object fields are sorted by key first. -/

/-- Lexicographic order on code points, the default JS array sort order on
strings. -/
def strLeChars : List Char → List Char → Bool
  | [], _ => true
  | _ :: _, [] => false
  | a :: as, b :: bs =>
    if a.toNat < b.toNat then true
    else if b.toNat < a.toNat then false
    else strLeChars as bs

def strLe (a b : String) : Bool := strLeChars a.toList b.toList

def insertFieldByKey (p : String × JValue) : List (String × JValue) → List (String × JValue)
  | [] => [p]
  | q :: qs => if strLe p.1 q.1 then p :: q :: qs else q :: insertFieldByKey p qs

def sortFieldsByKey : List (String × JValue) → List (String × JValue)
  | [] => []
  | p :: ps => insertFieldByKey p (sortFieldsByKey ps)

/-- A field list as an array of `[key, value]` pairs; used to compare
objects by their key-sorted serialization, the way `stable-hash` does. -/
def encodeFields (fs : List (String × JValue)) : JValue :=
  .arr (fs.map (fun p => .arr [.str p.1, p.2]))

def stableEqF : Nat → JValue → JValue → Bool
  | 0, _, _ => false
  | _ + 1, .str a, .str b => a == b
  | _ + 1, .num a, .num b => a == b
  | _ + 1, .nan, .nan => true
  | _ + 1, .inf a, .inf b => a == b
  | _ + 1, .bool a, .bool b => a == b
  | _ + 1, .null, .null => true
  | _ + 1, .undef, .undef => true
  | _ + 1, .arr [], .arr [] => true
  | fuel + 1, .arr (x :: xs), .arr (y :: ys) =>
    stableEqF fuel x y && stableEqF fuel (.arr xs) (.arr ys)
  | fuel + 1, .obj fs, .obj gs =>
    stableEqF fuel (encodeFields (sortFieldsByKey fs)) (encodeFields (sortFieldsByKey gs))
  | _ + 1, _, _ => false

mutual

def jsize : JValue → Nat
  | .arr xs => 1 + jsizeList xs
  | .obj fs => 1 + jsizeFields fs
  | _ => 1

def jsizeList : List JValue → Nat
  | [] => 0
  | x :: xs => jsize x + jsizeList xs

def jsizeFields : List (String × JValue) → Nat
  | [] => 0
  | p :: ps => jsize p.2 + jsizeFields ps

end

/-- `stableHash(a) === stableHash(b)`; the fuel generously bounds the
recursion depth of the comparison (the field encoding triples a node). -/
def stableEq (a b : JValue) : Bool := stableEqF (3 * (jsize a + jsize b) + 1) a b

/-! ### Loose equality with the empty string

`isFieldDirty` falls back to `value != ""` (JS loose inequality) when the
snapshot has no entry.  Abstract equality with `""`: strings compare as
strings; numbers and booleans compare through `ToNumber("") = 0`; `null`,
`undefined` and `NaN` are never equal to `""`; an array converts through
its joined string form (empty iff every element stringifies to the empty
string and there is at most one, since the separator is a comma); objects
convert to `"[object Object]"`. -/

def arrayEltStringEmpty : JValue → Bool
  | .str s => s == ""
  | .null => true
  | .undef => true
  | .arr [] => true
  | .arr [x] => arrayEltStringEmpty x
  | .arr (_ :: _ :: _) => false
  | _ => false

/-- `v == ""` (JS abstract equality). -/
def looseEqEmptyStr : JValue → Bool
  | .str s => s == ""
  | .num q => q == 0
  | .nan => false
  | .inf _ => false
  | .bool b => b == false
  | .null => false
  | .undef => false
  | .arr [] => true
  | .arr [x] => arrayEltStringEmpty x
  | .arr (_ :: _ :: _) => false
  | .obj _ => false

/-! ### The `required` validator -/

/-- `value?.length == 0`: strings and arrays expose their length; on a plain
object the own property `"length"` is read, then loosely compared with `0`
(the string case converts through `ToNumber`); every other value has no
`length`, and `undefined == 0` is false. -/
def lengthLooseEqZero : JValue → Bool
  | .str s => s.length == 0
  | .arr xs => xs.isEmpty
  | .obj fs =>
    (match lookupProp "length" fs with
     | some (.num q) => q == 0
     | some (.str s) => jsStringToNumber s == some true
     | some (.bool b) => b == false
     | some (.arr []) => true
     | _ => false)
  | _ => false

/-- The body of the validator returned by `required(message)`:
`if (typeof value != "number" && !value) return message;
 if (value?.length == 0) return message;`. -/
def requiredCore (message : String) (value : JValue) : Option String :=
  if !typeofIsNumber value && !truthy value then some message
  else if lengthLooseEqZero value then some message
  else none

/-- `required(message)` as a `FieldValidator` (the second argument of the
validator call is ignored by the returned function). -/
def requiredValidator (message : String) : FieldValidator :=
  fun value _ => requiredCore message value

/-! ### Registry operations (latest revision, lines 787-833 and 864-870 of
the unnamed source) -/

def mapFieldAt (n : String) (g : Field → Field) (d : List (String × Field)) : List (String × Field) :=
  d.map (fun p => if p.1 = n then (p.1, g p.2) else p)

/-- `touch(name)`: guarded by `data.hasOwnProperty(name)`. -/
def touch (n : String) (w : World) : World :=
  if containsField n w.data then { w with data := mapFieldAt n (fun f => { f with touched := true }) w.data }
  else w

/-- `setFieldRef(name, ref)`: guarded; replaces the bound element handle. -/
def setFieldRef (n : String) (r : Nat) (w : World) : World :=
  if containsField n w.data then { w with data := mapFieldAt n (fun f => { f with ref := some r }) w.data }
  else w

/-- `addError(name, error, focus)`: guarded; appends the error, then focuses
the bound element when `focus` is set and an element is bound. -/
def addError (n : String) (e : String) (focus : Bool) (w : World) : World :=
  match lookupField n w.data with
  | none => w
  | some f =>
    let w1 := { w with data := mapFieldAt n (fun f => { f with errors := f.errors ++ [e] }) w.data }
    if focus then
      match f.ref with
      | some r => { w1 with focused := w1.focused ++ [r] }
      | none => w1
    else w1

/-- `setField(name, value, updateElementValue)`: guarded; writes the value,
forces `touched`, then pushes the value onto the bound element when asked. -/
def setField (n : String) (v : JValue) (updateElementValue : Bool) (w : World) : World :=
  match lookupField n w.data with
  | none => w
  | some f =>
    let w1 := { w with data := mapFieldAt n (fun f => { f with value := v, touched := true }) w.data }
    if updateElementValue then
      match f.ref with
      | some r => { w1 with elemWrites := w1.elemWrites ++ [(r, v)] }
      | none => w1
    else w1

/-- `addField(name, validators, defaultValue, element?)`: recompute the
path; when the name is already registered keep its current value and, if an
element handle was supplied, push that value onto the element; always store
a fresh record with `touched := false` and empty errors. -/
def addField (n : String) (validators : List FieldValidator) (defaultValue : JValue)
    (element : Option Nat) (w : World) : World :=
  let path := analyzeNamePath n
  match lookupField n w.data with
  | some f =>
    let w1 :=
      match element with
      | some e => { w with elemWrites := w.elemWrites ++ [(e, f.value)] }
      | none => w
    { w1 with data := setRecord n ⟨path, element, f.value, false, [], validators⟩ w1.data }
  | none =>
    { w with data := setRecord n ⟨path, element, defaultValue, false, [], validators⟩ w.data }

/-- `removeField(name)`: rebuilds the registry without the named entry. -/
def removeField (n : String) (w : World) : World :=
  { w with data := w.data.filter (fun p => !(p.1 == n)) }

/-- `clearErrors(name)` for a single name: `setData(name, "errors", [])`
with NO existence guard — on an unregistered name the store write descends
into `undefined` and raises a `TypeError` (`Except.error ()`). -/
def clearErrorsSingle (n : String) (w : World) : Except Unit World :=
  if containsField n w.data then
    .ok { w with data := mapFieldAt n (fun f => { f with errors := [] }) w.data }
  else .error ()

/-- `clearErrors()` with the name omitted (or an empty list): clears every
field, iterating the registry keys. -/
def clearErrorsAll (w : World) : World :=
  { w with data := w.data.map (fun p => (p.1, { p.2 with errors := [] })) }

/-- `clearErrors(names)` for a list: each single-name write in order, each
unguarded. -/
def clearErrorsMany (names : List String) (w : World) : Except Unit World :=
  match names with
  | [] => .ok w
  | n :: rest => do
    let w1 ← clearErrorsSingle n w
    clearErrorsMany rest w1

/-! ### The validation pipeline

`validate(name?, focusOnError)` dispatches: a missing, empty-string or
empty-list name validates every registered field through `multiple`; a
list goes through `multiple`; a single name runs the per-field pipeline.

The per-field pipeline awaits each validator in order, collecting the
non-`undefined` results (`runValidators`), and then performs the completing
steps (`validateCompletion`): the optional `data[name].ref?.focus()` and
the `setData(name, "errors", errors)` write.  Neither completing step
re-checks that the record still exists — only the entry check before the
awaits does — so a record removed while a validation is suspended makes
the completion dereference `undefined` and raise a `TypeError`. -/

def runValidators (validators : List FieldValidator) (value wholeValues : JValue) : List String :=
  validators.filterMap (fun validator => validator value wholeValues)

/-- The errors the pipeline collects for a registered field `f` in world
`w`: every validator applied, in order, to the field value and the
projected whole-form values. -/
def collectedErrors (f : Field) (w : World) : List String :=
  runValidators f.validators f.value (extractValues w.data)

/-- The steps of `validate` after the validator loop, applied to whatever
the world is when the awaits settle:
`if (errors.length > 0 && focusOnError) data[name].ref?.focus();`
then `setData(name, "errors", errors); return errors.length == 0`. -/
def validateCompletion (n : String) (errors : List String) (focusOnError : Bool)
    (w : World) : Except Unit (World × Bool) := do
  let w1 ←
    if !errors.isEmpty && focusOnError then
      match lookupField n w.data with
      | none => .error ()
      | some f =>
        match f.ref with
        | some r => .ok { w with focused := w.focused ++ [r] }
        | none => .ok w
    else .ok w
  if containsField n w1.data then
    .ok ({ w1 with data := mapFieldAt n (fun f => { f with errors := errors }) w1.data },
         errors.isEmpty)
  else .error ()

/-- `validate` on a single (nonempty) name, run to completion with no
interleaved mutation: `if (!data.hasOwnProperty(name)) return false`, then
collect the errors and complete. -/
def validateSingle (n : String) (focusOnError : Bool) (w : World) : Except Unit (World × Bool) :=
  match lookupField n w.data with
  | none => .ok (w, false)
  | some f => validateCompletion n (collectedErrors f w) focusOnError w

/-- The loop body state of `multiple`: `isValid`, `alreadyFocusField`.
Each key is validated with `focusOnError = false`; on the first failure
(`!result && isValid`) the flag drops, and `data[key].ref` is read — a
throw when the key is not registered — and focused when present and
`focusOnError` is set.  Keys are assumed nonempty strings: `validate("")`
would re-dispatch to the whole-form branch (registered names are nonempty
in any state the claims quantify over). -/
def multipleLoop (focusOnError : Bool) :
    List String → Bool → Bool → World → Except Unit (World × Bool)
  | [], isValid, _, w => .ok (w, isValid)
  | key :: rest, isValid, alreadyFocusField, w => do
    let (w1, result) ← validateSingle key false w
    if !result && isValid then
      if !alreadyFocusField then
        match lookupField key w1.data with
        | none => .error ()
        | some f =>
          match f.ref with
          | some r =>
            if focusOnError then
              multipleLoop focusOnError rest false true { w1 with focused := w1.focused ++ [r] }
            else multipleLoop focusOnError rest false alreadyFocusField w1
          | none => multipleLoop focusOnError rest false alreadyFocusField w1
      else multipleLoop focusOnError rest false alreadyFocusField w1
    else multipleLoop focusOnError rest isValid alreadyFocusField w1

/-- `multiple(names, focusOnError)`. -/
def multiple (names : List String) (focusOnError : Bool) (w : World) : Except Unit (World × Bool) :=
  multipleLoop focusOnError names true false w

/-- The `validate` entry point.  `none` models the omitted argument;
`some (.inl s)` a single string; `some (.inr l)` a list.  The guard
`!name || name.length == 0` sends the omitted argument, the empty string
and the empty list to the whole-form branch over the enumeration order of
the registry keys. -/
def validateDispatch (name : Option (String ⊕ List String)) (focusOnError : Bool)
    (w : World) : Except Unit (World × Bool) :=
  match name with
  | none => multiple (dataKeys w.data) focusOnError w
  | some (.inl s) =>
    if s = "" then multiple (dataKeys w.data) focusOnError w
    else validateSingle s focusOnError w
  | some (.inr l) =>
    if l = [] then multiple (dataKeys w.data) focusOnError w
    else multiple l focusOnError w

/-! ### The dirty evaluator (per-field snapshot variant) -/

def lookupInitial (n : String) : List (String × JValue) → Option JValue
  | [] => none
  | p :: rest => if p.1 = n then some p.2 else lookupInitial n rest

/-- `isFieldDirty(name)`: `false` when the name is not registered; when the
snapshot has no entry for the name, `value != ""` (loose); otherwise
`stableHash(initialData[name]) !== stableHash(value)`. -/
def isFieldDirty (n : String) (w : World) : Bool :=
  match lookupField n w.data with
  | none => false
  | some f =>
    match lookupInitial n w.initialData with
    | none => !looseEqEmptyStr f.value
    | some init => !stableEq init f.value

/-- The `dirty` memo then `isDirty`: a map over the registry keys, dirty
iff some key maps to `true`. -/
def isFormDirty (w : World) : Bool :=
  (dataKeys w.data).any (fun k => isFieldDirty k w)

/-! ### Abbreviations used by the statements -/

/-- The world after replacing field `n`'s error list with `E` (the shape of
the store write both `validate` and `clearErrors` perform). -/
def setFieldErrors (n : String) (E : List String) (w : World) : World :=
  { w with data := mapFieldAt n (fun f => { f with errors := E }) w.data }

/-- What a run of `validate(n, false)` returns for `n` in world `w`: the
collected error list is empty for a registered field, `false` for an
unknown one. -/
def fieldResult (n : String) (w : World) : Bool :=
  match lookupField n w.data with
  | some f => (collectedErrors f w).isEmpty
  | none => false

/-- The bound element of a field, when both exist. -/
def fieldRef (n : String) (w : World) : Option Nat :=
  match lookupField n w.data with
  | some f => f.ref
  | none => none

/-- The focus calls a batch emits: the bound element of the first failing
name, when it has one. -/
def firstFailFocus (names : List String) (w : World) : List Nat :=
  match names.find? (fun k => !fieldResult k w) with
  | some k => (fieldRef k w).toList
  | none => []

/-! ### Concrete scenarios from the testable properties -/

/-- A validator that always fails with `"A"`. -/
def failA : FieldValidator := fun _ _ => some "A"

/-- A validator that always fails with `"B"`. -/
def failB : FieldValidator := fun _ _ => some "B"

/-- P5: fields `"a.b" = 1` and `"a.c" = 2`. -/
def wP5a : World := addField "a.c" [] (.num 2) none (addField "a.b" [] (.num 1) none emptyWorld)

/-- P5: fields `"items.0" = "x"` and `"items.1" = "y"`. -/
def wP5b : World :=
  addField "items.1" [] (.str "y") none (addField "items.0" [] (.str "x") none emptyWorld)

/-- A field `"a"` that has been touched and carries one external error. -/
def wC2base : World := addError "a" "E" false (touch "a" (addField "a" [] (.str "") none emptyWorld))

/-- `wC2base` after re-registering `"a"` with default `"d"`. -/
def wC2re : World := addField "a" [] (.str "d") none wC2base

/-- P3: a field `"x"` with validators `[failA, failB]`. -/
def wP3 : World := addField "x" [failA, failB] (.str "") none emptyWorld

/-- P3: `wP3` after `validate("x")`. -/
def wP3v : World := setFieldErrors "x" ["A", "B"] wP3

/-- P7: a never-touched field `"email"` with a `required` validator and a
passing value. -/
def wP7 : World := addField "email" [requiredValidator "R"] (.str "a@x.com") none emptyWorld

/-- P7: `wP7` after `touch("email")`. -/
def wP7t : World := touch "email" wP7

/-- P7: `wP7t` after a passing `validate("email")`. -/
def wP7v : World := setFieldErrors "email" [] wP7t

/-- P4: failing fields `"x"` (element 1) and `"y"` (element 2). -/
def wP4 : World :=
  addField "y" [failB] (.str "") (some 2) (addField "x" [failA] (.str "") (some 1) emptyWorld)

/-- A field `"n"` holding the number `0`, with an empty snapshot. -/
def wC6 : World := addField "n" [] (.num 0) none emptyWorld

/-- P6: live field `"email" = "a@x.com"` with the matching snapshot entry. -/
def wP6 : World :=
  { addField "email" [] (.str "a@x.com") none emptyWorld with
    initialData := [("email", .str "a@x.com")] }

/-- P6: `wP6` after the live value changes to `"b@x.com"`. -/
def wP6b : World := setField "email" (.str "b@x.com") true wP6

/-- A field `"f"` with one always-failing validator, the target of an
in-flight validation. -/
def wC9 : World := addField "f" [failA] (.str "") none emptyWorld

/-- `wC9` after `removeField("f")` deletes the field mid-flight. -/
def wC9removed : World := removeField "f" wC9

/-! ## Registry lemmas -/

theorem lookupField_cons (n : String) (p : String × Field) (rest : List (String × Field)) :
    lookupField n (p :: rest) = if p.1 = n then some p.2 else lookupField n rest := rfl

theorem containsField_cons (n : String) (p : String × Field) (rest : List (String × Field)) :
    containsField n (p :: rest) = if p.1 = n then true else containsField n rest := by
  by_cases h : p.1 = n <;> simp [containsField, lookupField_cons, h]

theorem lookupField_map_replace (n : String) (f : Field) (d : List (String × Field)) :
    lookupField n (d.map (fun p => if p.1 = n then (n, f) else p)) =
      if containsField n d then some f else none := by
  induction d with
  | nil => simp [lookupField, containsField]
  | cons p rest ih =>
    by_cases h : p.1 = n
    · simp [lookupField_cons, containsField_cons, h]
    · simp only [List.map_cons, if_neg h, lookupField_cons, containsField_cons, h, if_false, ih,
        if_neg h]

theorem lookupField_append_single (n : String) (f : Field) (d : List (String × Field))
    (h : containsField n d = false) :
    lookupField n (d ++ [(n, f)]) = some f := by
  induction d with
  | nil => simp [lookupField]
  | cons p rest ih =>
    rw [containsField_cons] at h
    by_cases hp : p.1 = n
    · simp [hp] at h
    · simp only [if_neg hp] at h
      simp [lookupField_cons, hp, ih h]

theorem lookupField_setRecord (n : String) (f : Field) (d : List (String × Field)) :
    lookupField n (setRecord n f d) = some f := by
  unfold setRecord
  by_cases h : containsField n d = true
  · simp only [h, if_true, lookupField_map_replace, if_pos h]
  · rw [Bool.not_eq_true] at h
    simp only [h, Bool.false_eq_true, if_false]
    exact lookupField_append_single n f d h

/-- The record `addField` leaves under the registered name: path recomputed
from the name, the supplied element and validators, `touched := false`,
empty errors, and the previous value when one existed (the default
otherwise). -/
theorem addField_lookup (w : World) (n : String) (validators : List FieldValidator)
    (defaultValue : JValue) (element : Option Nat) :
    lookupField n (addField n validators defaultValue element w).data =
      some { path := analyzeNamePath n, ref := element,
             value := match lookupField n w.data with
                      | some f => f.value
                      | none => defaultValue,
             touched := false, errors := [], validators := validators } := by
  unfold addField
  cases h : lookupField n w.data with
  | none => simpa using lookupField_setRecord n _ w.data
  | some f =>
    cases element with
    | none => simpa using lookupField_setRecord n _ w.data
    | some e => simpa using lookupField_setRecord n _ w.data

theorem lookupField_mapFieldAt (k n : String) (g : Field → Field) (d : List (String × Field)) :
    lookupField k (mapFieldAt n g d) =
      (lookupField k d).map (fun f => if k = n then g f else f) := by
  induction d with
  | nil => simp [lookupField, mapFieldAt]
  | cons p rest ih =>
    by_cases hpn : p.1 = n
    · by_cases hpk : p.1 = k
      · simp [mapFieldAt, lookupField_cons, hpn, hpk, hpk ▸ hpn]
      · simp only [mapFieldAt, List.map_cons, if_pos hpn, lookupField_cons] at *
        have : ¬(n = k) := fun h => hpk (h ▸ hpn)
        simp [this, hpk, ih, mapFieldAt]
    · by_cases hpk : p.1 = k
      · have : ¬(k = n) := fun h => hpn (hpk.symm ▸ h ▸ rfl)
        simp [mapFieldAt, lookupField_cons, hpn, hpk, this]
      · simp only [mapFieldAt, List.map_cons, if_neg hpn, lookupField_cons, hpk, if_false] at *
        exact ih

theorem keys_mapFieldAt (n : String) (g : Field → Field) :
    ∀ d : List (String × Field), (mapFieldAt n g d).map (·.1) = d.map (·.1)
  | [] => rfl
  | p :: rest => by
    show (if p.1 = n then (p.1, g p.2) else p).1 :: (mapFieldAt n g rest).map (·.1) =
      p.1 :: rest.map (·.1)
    rw [keys_mapFieldAt n g rest]
    by_cases hpn : p.1 = n <;> simp [hpn]

theorem containsField_mapFieldAt (k n : String) (g : Field → Field) (d : List (String × Field)) :
    containsField k (mapFieldAt n g d) = containsField k d := by
  unfold containsField
  rw [lookupField_mapFieldAt]
  cases lookupField k d <;> rfl

/-- Pointwise-equal step functions fold alike. -/
theorem foldl_congr_fn {α β : Type} (F G : α → β → α) (h : ∀ a b, F a b = G a b) :
    ∀ (l : List β) (a : α), l.foldl F a = l.foldl G a := by
  intro l
  induction l with
  | nil => intro a; rfl
  | cons x xs ih => intro a; simp only [List.foldl_cons, h, ih]

/-- A per-field rewrite that keeps `path` and `value` keeps the projected
values object. -/
theorem extractValues_mapFieldAt (n : String) (g : Field → Field)
    (hpath : ∀ f, (g f).path = f.path) (hvalue : ∀ f, (g f).value = f.value)
    (d : List (String × Field)) :
    extractValues (mapFieldAt n g d) = extractValues d := by
  unfold extractValues
  rw [show dataKeys (mapFieldAt n g d) = dataKeys d by unfold dataKeys; rw [keys_mapFieldAt]]
  refine foldl_congr_fn _ _ (fun acc k => ?_) (dataKeys d) (JValue.obj [])
  rw [lookupField_mapFieldAt]
  cases h : lookupField k d with
  | none => rfl
  | some f =>
    by_cases hk : k = n
    · simp [hk, hpath, hvalue]
    · simp [hk]

theorem lookupField_setFieldErrors (k n : String) (E : List String) (w : World) :
    lookupField k (setFieldErrors n E w).data =
      (lookupField k w.data).map (fun f => if k = n then { f with errors := E } else f) := by
  unfold setFieldErrors
  dsimp only
  exact lookupField_mapFieldAt k n _ w.data

theorem extractValues_setFieldErrors (n : String) (E : List String) (w : World) :
    extractValues (setFieldErrors n E w).data = extractValues w.data := by
  unfold setFieldErrors
  dsimp only
  exact extractValues_mapFieldAt n (fun f => { f with errors := E })
    (fun _ => rfl) (fun _ => rfl) w.data

theorem collectedErrors_setFieldErrors (f : Field) (n : String) (E : List String) (w : World) :
    collectedErrors f (setFieldErrors n E w) = collectedErrors f w := by
  unfold collectedErrors
  rw [extractValues_setFieldErrors]

theorem fieldResult_setFieldErrors (k n : String) (E : List String) (w : World) :
    fieldResult k (setFieldErrors n E w) = fieldResult k w := by
  unfold fieldResult
  rw [lookupField_setFieldErrors]
  cases h : lookupField k w.data with
  | none => rfl
  | some f =>
    by_cases hk : k = n <;>
      simp [hk, collectedErrors, extractValues_setFieldErrors]

theorem fieldRef_setFieldErrors (k n : String) (E : List String) (w : World) :
    fieldRef k (setFieldErrors n E w) = fieldRef k w := by
  unfold fieldRef
  rw [lookupField_setFieldErrors]
  cases h : lookupField k w.data with
  | none => rfl
  | some f => by_cases hk : k = n <;> simp [hk]

theorem containsField_setFieldErrors (k n : String) (E : List String) (w : World) :
    containsField k (setFieldErrors n E w).data = containsField k w.data := by
  unfold setFieldErrors
  dsimp only
  exact containsField_mapFieldAt k n _ w.data

theorem focused_setFieldErrors (n : String) (E : List String) (w : World) :
    (setFieldErrors n E w).focused = w.focused := rfl

/-! ## The single-field validation run -/

/-- With no interleaved mutation, `validate(n, false)` on a registered
field replaces its errors with the collected list and reports whether that
list is empty. -/
theorem validateSingle_known (n : String) (w : World) (f : Field)
    (h : lookupField n w.data = some f) :
    validateSingle n false w =
      .ok (setFieldErrors n (collectedErrors f w) w, (collectedErrors f w).isEmpty) := by
  have hc : containsField n w.data = true := by simp [containsField, h]
  unfold validateSingle validateCompletion
  rw [h]
  simp [hc, Bind.bind, Except.bind, setFieldErrors]

theorem fieldResult_known (n : String) (w : World) (f : Field)
    (h : lookupField n w.data = some f) :
    fieldResult n w = (collectedErrors f w).isEmpty := by
  unfold fieldResult
  rw [h]

/-! ## Congruence helpers -/

theorem all_congr_fn {α : Type} (p q : α → Bool) :
    ∀ l : List α, (∀ x ∈ l, p x = q x) → l.all p = l.all q
  | [], _ => rfl
  | x :: xs, h => by
    rw [List.all_cons, List.all_cons, h x (List.mem_cons_self x xs),
      all_congr_fn p q xs (fun y hy => h y (List.mem_cons_of_mem x hy))]

theorem find?_congr_fn {α : Type} (p q : α → Bool) :
    ∀ l : List α, (∀ x ∈ l, p x = q x) → l.find? p = l.find? q
  | [], _ => rfl
  | x :: xs, h => by
    rw [List.find?_cons, List.find?_cons, h x (List.mem_cons_self x xs)]
    cases q x
    · exact find?_congr_fn p q xs (fun y hy => h y (List.mem_cons_of_mem x hy))
    · rfl

theorem firstFailFocus_setFieldErrors (names : List String) (n : String) (E : List String)
    (w : World) :
    firstFailFocus names (setFieldErrors n E w) = firstFailFocus names w := by
  unfold firstFailFocus
  rw [find?_congr_fn _ (fun k => !fieldResult k w) names
    (fun k _ => by rw [fieldResult_setFieldErrors])]
  cases names.find? (fun k => !fieldResult k w) with
  | none => rfl
  | some k =>
    show (fieldRef k (setFieldErrors n E w)).toList = (fieldRef k w).toList
    rw [fieldRef_setFieldErrors]

theorem fieldResult_data_eq (k : String) {w w' : World} (h : w'.data = w.data) :
    fieldResult k w' = fieldResult k w := by
  unfold fieldResult collectedErrors
  rw [h]

theorem fieldRef_data_eq (k : String) {w w' : World} (h : w'.data = w.data) :
    fieldRef k w' = fieldRef k w := by
  unfold fieldRef
  rw [h]

/-! ## The batch loop -/

/-- Once `isValid` has dropped, the rest of the batch only rewrites error
lists: the result is `false` and no further focus happens. -/
theorem multipleLoop_invalid (foc : Bool) :
    ∀ (names : List String) (af : Bool) (w : World),
      (∀ k ∈ names, containsField k w.data = true) →
      ∃ w2, multipleLoop foc names false af w = .ok (w2, false) ∧ w2.focused = w.focused
  | [], af, w, _ => ⟨w, rfl, rfl⟩
  | k :: rest, af, w, h => by
    obtain ⟨f, hf⟩ := Option.isSome_iff_exists.mp (h k (List.mem_cons_self k rest))
    obtain ⟨w2, heq, hfoc⟩ := multipleLoop_invalid foc rest af (setFieldErrors k (collectedErrors f w) w)
      (fun x hx => by
        rw [containsField_setFieldErrors]
        exact h x (List.mem_cons_of_mem k hx))
    have step : multipleLoop foc (k :: rest) false af w =
        multipleLoop foc rest false af (setFieldErrors k (collectedErrors f w) w) := by
      conv_lhs => rw [multipleLoop]
      rw [validateSingle_known k w f hf]
      simp [Bind.bind, Except.bind]
    exact ⟨w2, step.trans heq, by rw [hfoc, focused_setFieldErrors]⟩

/-- A batch over registered names: the result is the conjunction of the
per-field outcomes against the starting world, and exactly the bound
element of the first failing name is focused, only when `focusOnError` is
set. -/
theorem multipleLoop_valid (foc : Bool) :
    ∀ (names : List String) (w : World),
      (∀ k ∈ names, containsField k w.data = true) →
      ∃ w2, multipleLoop foc names true false w =
          .ok (w2, names.all (fun k => fieldResult k w)) ∧
        w2.focused = w.focused ++ (if foc then firstFailFocus names w else [])
  | [], w, _ => by
    refine ⟨w, rfl, ?_⟩
    simp [firstFailFocus, List.find?]
  | k :: rest, w, h => by
    obtain ⟨f, hf⟩ := Option.isSome_iff_exists.mp (h k (List.mem_cons_self k rest))
    have hrest : ∀ x ∈ rest, containsField x (setFieldErrors k (collectedErrors f w) w).data = true :=
      fun x hx => by
        rw [containsField_setFieldErrors]
        exact h x (List.mem_cons_of_mem k hx)
    have hres : fieldResult k w = (collectedErrors f w).isEmpty := fieldResult_known k w f hf
    cases hE : (collectedErrors f w).isEmpty with
    | true =>
      obtain ⟨w2, heq, hfoc⟩ :=
        multipleLoop_valid foc rest (setFieldErrors k (collectedErrors f w) w) hrest
      have step : multipleLoop foc (k :: rest) true false w =
          multipleLoop foc rest true false (setFieldErrors k (collectedErrors f w) w) := by
        conv_lhs => rw [multipleLoop]
        rw [validateSingle_known k w f hf]
        simp [Bind.bind, Except.bind, hE]
      refine ⟨w2, ?_, ?_⟩
      · rw [step, heq]
        have hall : rest.all (fun x => fieldResult x (setFieldErrors k (collectedErrors f w) w)) =
            rest.all (fun x => fieldResult x w) :=
          all_congr_fn _ _ rest (fun x _ => fieldResult_setFieldErrors x k _ w)
        rw [hall, List.all_cons, hres, hE, Bool.true_and]
      · rw [hfoc, focused_setFieldErrors, firstFailFocus_setFieldErrors]
        have hfind : firstFailFocus (k :: rest) w = firstFailFocus rest w := by
          unfold firstFailFocus
          rw [List.find?_cons, hres, hE]
          rfl
        rw [hfind]
    | false =>
      have hlook1 : lookupField k (setFieldErrors k (collectedErrors f w) w).data =
          some { f with errors := collectedErrors f w } := by
        rw [lookupField_setFieldErrors, hf]
        simp
      have hfind : (k :: rest).find? (fun x => !fieldResult x w) = some k := by
        rw [List.find?_cons, hres, hE]
        rfl
      have hallF : (k :: rest).all (fun x => fieldResult x w) = false := by
        rw [List.all_cons, hres, hE, Bool.false_and]
      cases hr : f.ref with
      | some rcur =>
        cases foc with
        | true =>
          obtain ⟨w2, heq, hfoc⟩ := multipleLoop_invalid true rest true
            { setFieldErrors k (collectedErrors f w) w with
              focused := (setFieldErrors k (collectedErrors f w) w).focused ++ [rcur] }
            (fun x hx => hrest x hx)
          have step : multipleLoop true (k :: rest) true false w =
              multipleLoop true rest false true
                { setFieldErrors k (collectedErrors f w) w with
                  focused := (setFieldErrors k (collectedErrors f w) w).focused ++ [rcur] } := by
            conv_lhs => rw [multipleLoop]
            rw [validateSingle_known k w f hf]
            simp [Bind.bind, Except.bind, hE, hlook1, hr]
          refine ⟨w2, ?_, ?_⟩
          · rw [step, heq, hallF]
          · rw [hfoc]
            show (setFieldErrors k (collectedErrors f w) w).focused ++ [rcur] =
              w.focused ++ (if true then firstFailFocus (k :: rest) w else [])
            rw [focused_setFieldErrors, if_pos rfl]
            unfold firstFailFocus
            rw [hfind]
            dsimp only
            unfold fieldRef
            rw [hf]
            dsimp only
            rw [hr]
            rfl
        | false =>
          obtain ⟨w2, heq, hfoc⟩ := multipleLoop_invalid false rest false
            (setFieldErrors k (collectedErrors f w) w) hrest
          have step : multipleLoop false (k :: rest) true false w =
              multipleLoop false rest false false (setFieldErrors k (collectedErrors f w) w) := by
            conv_lhs => rw [multipleLoop]
            rw [validateSingle_known k w f hf]
            simp [Bind.bind, Except.bind, hE, hlook1, hr]
          refine ⟨w2, ?_, ?_⟩
          · rw [step, heq, hallF]
          · rw [hfoc, focused_setFieldErrors]
            simp
      | none =>
        obtain ⟨w2, heq, hfoc⟩ := multipleLoop_invalid foc rest false
          (setFieldErrors k (collectedErrors f w) w) hrest
        have step : multipleLoop foc (k :: rest) true false w =
            multipleLoop foc rest false false (setFieldErrors k (collectedErrors f w) w) := by
          conv_lhs => rw [multipleLoop]
          rw [validateSingle_known k w f hf]
          simp [Bind.bind, Except.bind, hE, hlook1, hr]
        refine ⟨w2, ?_, ?_⟩
        · rw [step, heq, hallF]
        · rw [hfoc, focused_setFieldErrors]
          have : firstFailFocus (k :: rest) w = [] := by
            unfold firstFailFocus
            rw [hfind]
            dsimp only
            unfold fieldRef
            rw [hf]
            dsimp only
            rw [hr]
            rfl
          rw [this]
          simp

/-! ## Key enumeration and unknown-name lemmas -/

theorem mem_insertIndexKey {x k : String} :
    ∀ l : List String, x ∈ insertIndexKey k l ↔ x = k ∨ x ∈ l
  | [] => by simp [insertIndexKey]
  | y :: ys => by
    unfold insertIndexKey
    by_cases h : indexKeyValue k ≤ indexKeyValue y
    · simp [h]
    · rw [if_neg h]
      simp only [List.mem_cons, mem_insertIndexKey ys]
      tauto

theorem mem_sortIndexKeys {x : String} : ∀ l : List String, x ∈ sortIndexKeys l ↔ x ∈ l
  | [] => Iff.rfl
  | y :: ys => by
    unfold sortIndexKeys
    rw [mem_insertIndexKey, mem_sortIndexKeys ys]
    simp

theorem mem_jsKeysOf {x : String} (ks : List String) : x ∈ jsKeysOf ks ↔ x ∈ ks := by
  unfold jsKeysOf
  rw [List.mem_append, mem_sortIndexKeys]
  by_cases hc : isCanonicalIndex x = true <;> simp [List.mem_filter, hc]

theorem mem_keys_contains (k : String) :
    ∀ d : List (String × Field), k ∈ d.map (·.1) ↔ containsField k d = true
  | [] => by simp [containsField, lookupField]
  | p :: rest => by
    rw [containsField_cons]
    by_cases h : p.1 = k
    · simp [h]
    · have h2 : ¬(k = p.1) := fun hk => h hk.symm
      simp only [List.map_cons, List.mem_cons, if_neg h, h2, false_or]
      exact mem_keys_contains k rest

theorem containsField_of_mem_dataKeys {k : String} {d : List (String × Field)}
    (h : k ∈ dataKeys d) : containsField k d = true := by
  unfold dataKeys at h
  exact (mem_keys_contains k d).mp ((mem_jsKeysOf _).mp h)

theorem lookupField_none_iff (n : String) :
    ∀ d : List (String × Field), lookupField n d = none ↔ ∀ p ∈ d, p.1 ≠ n
  | [] => by simp [lookupField]
  | p :: rest => by
    rw [lookupField_cons]
    by_cases h : p.1 = n
    · simp [h]
    · simp [h, lookupField_none_iff n rest]

/-! ## Validity and dirtiness, unfolded -/

theorem fieldInvalid_iff (f : Field) :
    (!fieldInvalid f) = true ↔ ¬(f.errors ≠ [] ∨ (f.validators ≠ [] ∧ f.touched = false)) := by
  unfold fieldInvalid
  cases he : f.errors <;> cases hv : f.validators <;> cases ht : f.touched <;>
    simp [he, hv, ht]

theorem isFormValid_iff (d : List (String × Field)) :
    isFormValid d = true ↔
      ∀ p ∈ d, ¬(p.2.errors ≠ [] ∨ (p.2.validators ≠ [] ∧ p.2.touched = false)) := by
  unfold isFormValid
  rw [List.all_eq_true]
  exact forall_congr' (fun p => imp_congr Iff.rfl (fieldInvalid_iff p.2))

theorem isFormDirty_iff (w : World) :
    isFormDirty w = true ↔ ∃ p ∈ w.data, isFieldDirty p.1 w = true := by
  unfold isFormDirty dataKeys
  rw [List.any_eq_true]
  constructor
  · rintro ⟨k, hk, hd⟩
    obtain ⟨p, hp, hpk⟩ := List.mem_map.mp ((mem_jsKeysOf _).mp hk)
    exact ⟨p, hp, by rw [hpk]; exact hd⟩
  · rintro ⟨p, hp, hd⟩
    exact ⟨p.1, (mem_jsKeysOf _).mpr (List.mem_map.mpr ⟨p, hp, rfl⟩), hd⟩

theorem isFieldDirty_known (w : World) (n : String) (f : Field)
    (h : lookupField n w.data = some f) :
    (isFieldDirty n w = true ↔
      match lookupInitial n w.initialData with
      | some init => stableEq init f.value = false
      | none => looseEqEmptyStr f.value = false) := by
  unfold isFieldDirty
  rw [h]
  cases lookupInitial n w.initialData with
  | none => simp
  | some init => simp

/-! ## The claims -/

/-- Claim C1: for every field name already present in the registry, calling
`addField` again leaves the record value equal to the value it had before
the call (not the new default), and after any `addField` call a record for
the name is present. -/
theorem C1_reregistration_preserves_value :
    (∀ (w : World) (n : String) (validators : List FieldValidator) (d2 : JValue)
       (element : Option Nat) {f : Field}, lookupField n w.data = some f →
       (lookupField n (addField n validators d2 element w).data).map (·.value) = some f.value) ∧
    (∀ (w : World) (n : String) (validators : List FieldValidator) (dv : JValue)
       (element : Option Nat), containsField n (addField n validators dv element w).data = true) := by
  constructor
  · intro w n validators d2 element f hf
    rw [addField_lookup, hf]
    rfl
  · intro w n validators dv element
    unfold containsField
    rw [addField_lookup]
    rfl

/-- Witness for C1: re-registering the already-registered `"x"` of `wP3`
with default `"zzz"` keeps its value `""`, and a record stays present. -/
theorem C1_witness :
    (lookupField "x" (addField "x" [] (.str "zzz") none wP3).data).map (·.value) =
      some (JValue.str "") ∧
    containsField "x" (addField "x" [] (.str "zzz") none wP3).data = true :=
  ⟨C1_reregistration_preserves_value.1 wP3 "x" [] (.str "zzz") none rfl,
   C1_reregistration_preserves_value.2 wP3 "x" [] (.str "zzz") none⟩

/-- Counterexample to claim C2: the touched, error-carrying field `"a"` of
`wC2base` is re-registered in `wC2re`; `addField` resets `touched` to
`false` and `errors` to `[]` instead of leaving them unchanged. -/
theorem C2_counterexample :
    (lookupField "a" wC2base.data).map (fun f => (f.touched, f.errors)) = some (true, ["E"]) ∧
    (lookupField "a" wC2re.data).map (fun f => (f.touched, f.errors)) = some (false, []) :=
  ⟨rfl, rfl⟩

/-- Claim C2 as amended: every `addField` call (first registration or not)
stores a record with `touched := false`, empty `errors`, the supplied
element and validators, and a recomputed path; only the previous value is
preserved on re-registration. -/
theorem C2_amended_addField_resets_flags :
    ∀ (w : World) (n : String) (validators : List FieldValidator) (dv : JValue)
      (element : Option Nat),
      lookupField n (addField n validators dv element w).data =
        some { path := analyzeNamePath n, ref := element,
               value := match lookupField n w.data with
                        | some f => f.value
                        | none => dv,
               touched := false, errors := [], validators := validators } :=
  fun w n validators dv element => addField_lookup w n validators dv element

/-- Claim C3: `validate(n, false)` on a registered field runs every
validator in list order against the field value and the projected
whole-form values (`runValidators` is a `filterMap`, so no failure
short-circuits a later validator), replaces the error list wholesale with
the collected messages, and returns true iff that list is empty. -/
theorem C3_validate_accumulates_errors :
    ∀ (w : World) (n : String) {f : Field}, lookupField n w.data = some f →
      validateSingle n false w =
        .ok (setFieldErrors n (runValidators f.validators f.value (extractValues w.data)) w,
             (runValidators f.validators f.value (extractValues w.data)).isEmpty) ∧
      (lookupField n
          (setFieldErrors n (runValidators f.validators f.value (extractValues w.data)) w).data).map
        (·.errors) = some (runValidators f.validators f.value (extractValues w.data)) := by
  intro w n f h
  refine ⟨validateSingle_known n w f h, ?_⟩
  rw [lookupField_setFieldErrors, h]
  simp

/-- Witness for C3 (P3): with validators failing with `"A"` and `"B"`, the
stored errors are exactly `["A", "B"]` and the run reports failure. -/
theorem C3_witness :
    validateSingle "x" false wP3 = .ok (wP3v, false) ∧
    (lookupField "x" wP3v.data).map (·.errors) = some ["A", "B"] := by
  have h := C3_validate_accumulates_errors wP3 "x" rfl
  exact ⟨h.1, h.2⟩

/-- Claim C4: a field is invalid iff it has an error or has validators but
was never touched; `isFormValid` holds iff no field is invalid.  P7: the
never-touched `required` field makes `wP7` invalid, and after `touch` plus
a passing validation the form is valid. -/
theorem C4_validity :
    (∀ d : List (String × Field), isFormValid d = true ↔
      ∀ p ∈ d, ¬(p.2.errors ≠ [] ∨ (p.2.validators ≠ [] ∧ p.2.touched = false))) ∧
    isFormValid wP7.data = false ∧
    validateSingle "email" false wP7t = .ok (wP7v, true) ∧
    isFormValid wP7v.data = true :=
  ⟨isFormValid_iff, rfl, rfl, rfl⟩

/-- Witness for C4: the empty registry satisfies the per-field condition
vacuously and is valid. -/
theorem C4_witness : isFormValid ([] : List (String × Field)) = true :=
  (C4_validity.1 []).mpr (by simp)

/-- Claim C5 (P5): projecting `value` over fields `"a.b" = 1`, `"a.c" = 2`
yields `{ a: { b: 1, c: 2 } }`; over `"items.0" = "x"`, `"items.1" = "y"`
it yields `{ items: ["x", "y"] }` (the `"0"` segment is tagged as an array
index by `analyzeNamePath`, so the absent `items` slot is created as an
array). -/
theorem C5_projection :
    extractValues wP5a.data = .obj [("a", .obj [("b", .num 1), ("c", .num 2)])] ∧
    extractValues wP5b.data = .obj [("items", .arr [.str "x", .str "y"])] ∧
    analyzeNamePath "items.0" =
      [{ value := "items", arrayIndex := false }, { value := "0", arrayIndex := true }] :=
  ⟨rfl, rfl, rfl⟩

/-- Counterexample to claim C6: the field `"n"` of `wC6` holds the number
`0` and has no snapshot entry; `0` is not the empty string, yet
`isFieldDirty` reports clean, because the code uses JS loose inequality
(`value != ""`) and `0 == ""` holds. -/
theorem C6_counterexample :
    (lookupField "n" wC6.data).map (·.value) = some (JValue.num 0) ∧
    lookupInitial "n" wC6.initialData = none ∧
    JValue.num 0 ≠ JValue.str "" ∧
    isFieldDirty "n" wC6 = false := by
  refine ⟨rfl, rfl, ?_, rfl⟩
  intro h
  exact JValue.noConfusion h

/-- Claim C6 as amended: a registered field is dirty iff its value differs
from the snapshot entry under the `stable-hash` structural comparison, or,
with no snapshot entry, iff its value is not JS-loosely-equal to the empty
string (so the number `0`, `false` and `[]` also count as clean); the form
is dirty iff some registered field is dirty. -/
theorem C6_amended_dirty :
    (∀ (w : World) (n : String) {f : Field}, lookupField n w.data = some f →
      (isFieldDirty n w = true ↔
        match lookupInitial n w.initialData with
        | some init => stableEq init f.value = false
        | none => looseEqEmptyStr f.value = false)) ∧
    (∀ w : World, isFormDirty w = true ↔ ∃ p ∈ w.data, isFieldDirty p.1 w = true) :=
  ⟨by intro w n f hf; exact isFieldDirty_known w n f hf, isFormDirty_iff⟩

/-- Witness for C6 (P6): with snapshot `{ email: "a@x.com" }`, the matching
live value is clean and the changed value `"b@x.com"` is dirty. -/
theorem C6_witness :
    isFieldDirty "email" wP6 = false ∧ isFieldDirty "email" wP6b = true := by
  constructor
  · have h1 := C6_amended_dirty.1 wP6 "email" rfl
    cases hb : isFieldDirty "email" wP6 with
    | false => rfl
    | true =>
      have hx : stableEq (JValue.str "a@x.com") (JValue.str "a@x.com") = false := h1.mp hb
      exact absurd hx (by decide)
  · have h2 := C6_amended_dirty.1 wP6b "email" rfl
    exact h2.mpr (show stableEq (JValue.str "a@x.com") (JValue.str "b@x.com") = false by decide)

/-- Claim C7: a batch validation over registered (nonempty-string) names
runs in iteration order, returns true iff every requested field passed,
and, when `focusOnError` is set, focuses exactly the bound element of the
first failing name — later failures never steal focus.  The `none`
dispatch covers the omitted argument: all registered fields in enumeration
order.  (An empty-string key would re-enter the whole-form branch in the
source, hence the nonemptiness hypotheses.) -/
theorem C7_batch_focus_once :
    (∀ (w : World) (names : List String) (foc : Bool),
      (∀ k ∈ names, k ≠ "" ∧ containsField k w.data = true) →
      ∃ w2, multiple names foc w = .ok (w2, names.all (fun k => fieldResult k w)) ∧
        w2.focused = w.focused ++ (if foc then firstFailFocus names w else [])) ∧
    (∀ (w : World) (foc : Bool), containsField "" w.data = false →
      ∃ w2, validateDispatch none foc w =
          .ok (w2, (dataKeys w.data).all (fun k => fieldResult k w)) ∧
        w2.focused = w.focused ++ (if foc then firstFailFocus (dataKeys w.data) w else [])) := by
  constructor
  · intro w names foc h
    exact multipleLoop_valid foc names w (fun k hk => (h k hk).2)
  · intro w foc h
    exact multipleLoop_valid foc (dataKeys w.data) w
      (fun k hk => containsField_of_mem_dataKeys hk)

/-- Witness for C7 (P4): validating `["x", "y"]` on `wP4`, where both
fields fail and are bound to elements 1 and 2, focuses only element 1 and
returns false. -/
theorem C7_witness :
    ∃ w2, multiple ["x", "y"] true wP4 = .ok (w2, false) ∧ w2.focused = [1] := by
  obtain ⟨w2, h1, h2⟩ := C7_batch_focus_once.1 wP4 ["x", "y"] true (by
    intro k hk
    simp only [List.mem_cons, List.not_mem_nil, or_false] at hk
    rcases hk with rfl | rfl
    · exact ⟨by decide, rfl⟩
    · exact ⟨by decide, rfl⟩)
  exact ⟨w2, h1, h2⟩

/-- Claim C8: on a name that was never registered, `touch`, `setFieldRef`,
`setField`, `addError` and `removeField` are silent no-ops and
`validate` on the single name returns false with no state change; but
`clearErrors` on an unknown single name performs an UNGUARDED store write
and raises a `TypeError` — the one operation the claim lists that is not a
no-op (the sibling operations all carry an existence guard, so the guard
is missing by oversight). -/
theorem C8_unknown_name :
    (∀ (w : World) (n : String), lookupField n w.data = none →
      touch n w = w ∧
      (∀ r, setFieldRef n r w = w) ∧
      (∀ v b, setField n v b w = w) ∧
      (∀ e b, addError n e b w = w) ∧
      removeField n w = w ∧
      (∀ foc, validateSingle n foc w = .ok (w, false))) ∧
    clearErrorsSingle "ghost" emptyWorld = .error () := by
  refine ⟨?_, rfl⟩
  intro w n h
  have hc : containsField n w.data = false := by simp [containsField, h]
  refine ⟨?_, ?_, ?_, ?_, ?_, ?_⟩
  · simp [touch, hc]
  · intro r
    simp [setFieldRef, hc]
  · intro v b
    unfold setField
    rw [h]
  · intro e b
    unfold addError
    rw [h]
  · unfold removeField
    have hfix : w.data.filter (fun p => !(p.1 == n)) = w.data := by
      refine List.filter_eq_self.mpr ?_
      intro p hp
      have hpn := (lookupField_none_iff n w.data).mp h p hp
      simp [hpn]
    rw [hfix]
  · intro foc
    unfold validateSingle
    rw [h]

/-- Witness for C8: the never-registered name `"ghost"` on the empty
registry. -/
theorem C8_witness :
    touch "ghost" emptyWorld = emptyWorld ∧
    validateSingle "ghost" false emptyWorld = .ok (emptyWorld, false) := by
  have h := C8_unknown_name.1 emptyWorld "ghost" rfl
  exact ⟨h.1, h.2.2.2.2.2 false⟩

/-- Counterexample to claim C9: the completion of an in-flight validation
of `"f"` (collected errors `["A"]`) applied after `removeField("f")`
raises a `TypeError` instead of being a guarded no-op; applied before the
removal, the same completion succeeds. -/
theorem C9_counterexample :
    validateCompletion "f" ["A"] false wC9removed = .error () ∧
    lookupField "f" wC9removed.data = none ∧
    validateCompletion "f" ["A"] false wC9 = .ok (setFieldErrors "f" ["A"] wC9, false) :=
  ⟨rfl, rfl, rfl⟩

/-- Claim C9 as amended: the completing write of a validation is NOT
guarded by an existence check (only the entry check before the awaits is);
completing after the field was removed always raises a `TypeError`, and in
particular never re-creates a record. -/
theorem C9_amended_late_completion_throws :
    ∀ (w : World) (n : String) (errors : List String) (foc : Bool),
      lookupField n w.data = none → validateCompletion n errors foc w = .error () := by
  intro w n errors foc h
  have hc : containsField n w.data = false := by simp [containsField, h]
  unfold validateCompletion
  by_cases hE : (!errors.isEmpty && foc) = true
  · simp [hE, h, Bind.bind, Except.bind]
  · rw [Bool.not_eq_true] at hE
    simp [hE, hc, Bind.bind, Except.bind]

/-- Witness for C9: the removed field `"f"`. -/
theorem C9_witness : validateCompletion "f" ["A"] true wC9removed = .error () :=
  C9_amended_late_completion_throws wC9removed "f" ["A"] true rfl

/-- Claim C10: `required(message)` resolves to no error for every number
(including `0`, `NaN` and the infinities), every nonempty string and every
nonempty array, and resolves to `message` for the empty string, the empty
array, `false`, `null` and `undefined`. -/
theorem C10_required_semantics :
    ∀ m : String,
      (∀ q : ℚ, requiredCore m (.num q) = none) ∧
      requiredCore m .nan = none ∧
      (∀ b, requiredCore m (.inf b) = none) ∧
      (∀ s : String, s ≠ "" → requiredCore m (.str s) = none) ∧
      (∀ (x : JValue) (xs : List JValue), requiredCore m (.arr (x :: xs)) = none) ∧
      requiredCore m (.str "") = some m ∧
      requiredCore m (.arr []) = some m ∧
      requiredCore m (.bool false) = some m ∧
      requiredCore m .null = some m ∧
      requiredCore m .undef = some m := by
  intro m
  refine ⟨fun q => rfl, rfl, fun b => rfl, ?_, fun x xs => rfl, rfl, rfl, rfl, rfl, rfl⟩
  intro s hs
  have h1 : (s == "") = false := by simp [hs]
  have h2 : (s.length == 0) = false := by
    obtain ⟨cs⟩ := s
    cases cs with
    | nil => exact absurd rfl hs
    | cons c cs => simp [String.length]
  unfold requiredCore typeofIsNumber truthy lengthLooseEqZero
  simp [h1, h2]

/-- Witness for C10: a nonempty string passes, and so does the number 0. -/
theorem C10_witness :
    requiredCore "msg" (.str "a") = none ∧ requiredCore "msg" (.num 0) = none := by
  have h := C10_required_semantics "msg"
  exact ⟨h.2.2.2.1 "a" (by decide), h.1 0⟩

end Formular
